import Mathlib

/-!
# Verification of alpha-trading-crypto core algorithms

Shallow embedding of the repository's quoting model and backtest engine,
with theorems checking the natural-language specification against the code.

* `AvellanedaStoikov` (domain/services/avellaneda_stoikov.py): quoting model
  over ℝ (the source works with Python floats and `math.log`; we embed the
  arithmetic over the reals, reading float operations as exact).
* `BacktestEngine` (infrastructure/backtest/backtest_engine.py): closed-loop
  simulation over ℚ (all its arithmetic is field operations, so the rational
  embedding is exact and executable).
* `MarketMakingService.should_adjust_quotes`
  (domain/services/market_making_service.py).

Fallible code (Python `raise ValueError` / `BacktestError`) is embedded as
`Except String`.
-/

namespace AlphaTrading

/-! ## Avellaneda-Stoikov quoting model (avellaneda_stoikov.py) -/

/-- Parameters of the model (``AvellanedaStoikovParams``).  The pydantic
field validators (`gt=0`, `ge=0`) are carried separately as `Valid`. -/
structure AvellanedaStoikovParams where
  risk_aversion : ℝ
  volatility : ℝ
  arrival_rate : ℝ
  reservation_spread : ℝ

/-- The pydantic constraints on the parameters: `risk_aversion > 0`,
`volatility > 0`, `arrival_rate > 0`, `reservation_spread ≥ 0`. -/
def AvellanedaStoikovParams.Valid (p : AvellanedaStoikovParams) : Prop :=
  0 < p.risk_aversion ∧ 0 < p.volatility ∧ 0 < p.arrival_rate ∧
    0 ≤ p.reservation_spread

/-- Embedding of ``AvellanedaStoikov._calculate_reservation_price``:
`mid_price - gamma * sigma^2 * inventory * time_to_maturity`. -/
noncomputable def calc_reservation_price (p : AvellanedaStoikovParams)
    (mid_price inventory time_to_maturity : ℝ) : ℝ :=
  mid_price - p.risk_aversion * p.volatility ^ 2 * inventory * time_to_maturity

/-- Embedding of ``AvellanedaStoikov._calculate_optimal_spread``: the spread value
`max (γ·σ²·T + (2/γ)·log (1 + γ/k)) reservation_spread` with
`k = λ/(γ·σ²)`; the logarithmic term is 0 when `λ ≤ 0`, `γ ≤ 0` or `k ≤ 0`.
The `inventory` argument is accepted and unused, exactly as in the source. -/
noncomputable def calc_optimal_spread (p : AvellanedaStoikovParams)
    (_inventory time_to_maturity : ℝ) : ℝ :=
  let gamma := p.risk_aversion
  let sigma_sq := p.volatility ^ 2
  let lambda_rate := p.arrival_rate
  let base_spread := gamma * sigma_sq * time_to_maturity
  let intensity_component :=
    if 0 < lambda_rate ∧ 0 < gamma then
      let k := lambda_rate / (gamma * sigma_sq)
      if 0 < k then (2 / gamma) * Real.log (1 + gamma / k) else 0
    else 0
  max (base_spread + intensity_component) p.reservation_spread

/-- Embedding of ``AvellanedaStoikov.calculate_optimal_spread``: raises on
`mid_price ≤ 0`; otherwise centres the optimal spread on the reservation
price, re-centering with exactly `reservation_spread` if the resulting
quoted spread falls below it. -/
noncomputable def calculate_optimal_spread (p : AvellanedaStoikovParams)
    (mid_price inventory time_to_maturity : ℝ) : Except String (ℝ × ℝ) :=
  if mid_price ≤ 0 then .error "Mid price must be positive"
  else
    let reservation_price :=
      calc_reservation_price p mid_price inventory time_to_maturity
    let optimal_spread := calc_optimal_spread p inventory time_to_maturity
    let bid_price := reservation_price - optimal_spread / 2
    let ask_price := reservation_price + optimal_spread / 2
    if ask_price - bid_price < p.reservation_spread then
      .ok (reservation_price - p.reservation_spread / 2,
           reservation_price + p.reservation_spread / 2)
    else
      .ok (bid_price, ask_price)

/-- The inventory-skewed quantities of
``AvellanedaStoikov.calculate_optimal_quantities`` before the near-limit
dampening step: skew by `±inventory_fraction·0.5` according to the sign of
the inventory, then clamp at 0. -/
noncomputable def rawQuantities (inventory max_inventory base_quantity : ℝ) :
    ℝ × ℝ :=
  let inventory_fraction :=
    if 0 < max_inventory then |inventory| / max_inventory else 0
  let (bid_quantity, ask_quantity) :=
    if 0 < inventory then
      (base_quantity * (1 + inventory_fraction * 0.5),
       base_quantity * (1 - inventory_fraction * 0.5))
    else if inventory < 0 then
      (base_quantity * (1 - inventory_fraction * 0.5),
       base_quantity * (1 + inventory_fraction * 0.5))
    else
      (base_quantity, base_quantity)
  (max 0 bid_quantity, max 0 ask_quantity)

/-- Embedding of ``AvellanedaStoikov.calculate_optimal_quantities``: validates
`base_quantity` and `max_inventory`, calls `calculate_optimal_spread`
(whose prices are computed and discarded, but whose `ValueError` on
`mid_price ≤ 0` propagates), skews the quantities by inventory, and scales
both down by `max 0.1 (1 - (fraction - 0.8)·2)` when the inventory
fraction exceeds `0.8`.  The source also computes the reservation price
and discards it. -/
noncomputable def calculate_optimal_quantities (p : AvellanedaStoikovParams)
    (mid_price inventory max_inventory base_quantity time_to_maturity : ℝ) :
    Except String (ℝ × ℝ) :=
  if base_quantity ≤ 0 then .error "Base quantity must be positive"
  else if max_inventory ≤ 0 then .error "Max inventory must be positive"
  else
    let inventory_fraction :=
      if 0 < max_inventory then |inventory| / max_inventory else 0
    match calculate_optimal_spread p mid_price inventory time_to_maturity with
    | .error e => .error e
    | .ok _ =>
      let (bid_quantity, ask_quantity) :=
        rawQuantities inventory max_inventory base_quantity
      if 0.8 < inventory_fraction then
        let scale := max 0.1 (1 - (inventory_fraction - 0.8) * 2)
        .ok (bid_quantity * scale, ask_quantity * scale)
      else
        .ok (bid_quantity, ask_quantity)

/-! ## Market-making service (market_making_service.py) -/

/-- Embedding of ``MarketMakingService.should_adjust_quotes``.  Here `none` stands for an
absent resting order.  When a current price is not `> 0` the source sets the
relative change to `float("inf")`, which exceeds every finite threshold, so
that branch is embedded as `true`. -/
def should_adjust_quotes (_symbol : String)
    (current_bid current_ask : Option ℚ) (new_bid new_ask : ℚ)
    (min_spread_change : ℚ) : Bool :=
  match current_bid, current_ask with
  | some cb, some ca =>
    let bid_exceeds :=
      if 0 < cb then decide (min_spread_change < |new_bid - cb| / cb)
      else true
    let ask_exceeds :=
      if 0 < ca then decide (min_spread_change < |new_ask - ca| / ca)
      else true
    bid_exceeds || ask_exceeds
  | _, _ => true

/-! ## Backtest engine (backtest_engine.py, position.py)

The engine's arithmetic is entirely rational, so the embedding over ℚ is
exact and executable.  Timestamps are embedded as naturals; the `positions`
dict is an association list in insertion order, with the dict operations
`lookupPos`/`updateAssoc`/`eraseAssoc`.  The Sharpe-ratio and drawdown
statistics of `BacktestResult` involve `sqrt`/`std` and are not needed by
any property below, so the embedded result carries the remaining fields. -/

inductive OrderSide where
  | buy
  | sell
deriving DecidableEq

/-- The `1e-8` flatness tolerance used by ``Position.is_flat`` and the
engine's position-removal check. -/
def tol : ℚ := 1 / 100000000

/-- Embedding of ``Position`` (domain/entities/position.py), the fields the engine
touches.  `leverage`, `liquidation_price` and the timestamps are never read
by the backtest loop. -/
structure Position where
  symbol : String
  size : ℚ
  entry_price : ℚ
  mark_price : ℚ
  unrealized_pnl : ℚ := 0
  realized_pnl : ℚ := 0
  funding_paid : ℚ := 0
deriving DecidableEq

/-- Embedding of ``Position.update_pnl``: flat positions get `0`, otherwise
`size * (mark_price - entry_price)`. -/
def Position.update_pnl (p : Position) : Position :=
  if |p.size| < tol then { p with unrealized_pnl := 0 }
  else { p with unrealized_pnl := p.size * (p.mark_price - p.entry_price) }

/-- A row of the `prices` DataFrame (the columns the loop reads). -/
structure PriceRow where
  timestamp : ℕ
  symbol : String
  close : ℚ
deriving DecidableEq

/-- A row of the `signals` DataFrame. -/
structure Signal where
  timestamp : ℕ
  symbol : String
  side : OrderSide
  quantity : ℚ
deriving DecidableEq

/-- A record of the `trades` list appended when a position is closed or
reduced. -/
structure Trade where
  timestamp : ℕ
  symbol : String
  side : OrderSide
  quantity : ℚ
  entry_price : ℚ
  exit_price : ℚ
  pnl : ℚ
  commission : ℚ
deriving DecidableEq

/-- Embedding of the ``BacktestEngine`` construction parameters. -/
structure BacktestEngine where
  slippage : ℚ := 0.001
  commission : ℚ := 0.0002
  funding_rate : ℚ := 0.0001
deriving DecidableEq

/-- Embedding of ``BacktestEngine._apply_slippage``:
`slippage_factor = slippage * (1 + quantity/100)`, buys pay more, sells
receive less. -/
def BacktestEngine.apply_slippage (e : BacktestEngine) (price : ℚ)
    (side : OrderSide) (quantity : ℚ) : ℚ :=
  let slippage_factor := e.slippage * (1 + quantity / 100)
  match side with
  | .buy => price * (1 + slippage_factor)
  | .sell => price * (1 - slippage_factor)

/-- Dict read `positions.get(symbol)`. -/
def lookupPos : List (String × Position) → String → Option Position
  | [], _ => none
  | e :: ps, sym => if e.1 = sym then some e.2 else lookupPos ps sym

/-- Dict write `positions[symbol] = p`: replace in place, or append. -/
def updateAssoc : List (String × Position) → String → Position →
    List (String × Position)
  | [], sym, p => [(sym, p)]
  | e :: ps, sym, p =>
    if e.1 = sym then (sym, p) :: ps else e :: updateAssoc ps sym p

/-- Dict delete `del positions[symbol]`. -/
def eraseAssoc : List (String × Position) → String → List (String × Position)
  | [], _ => []
  | e :: ps, sym => if e.1 = sym then ps else e :: eraseAssoc ps sym

/-- The mutable state of one ``BacktestEngine.run`` invocation. -/
structure BTState where
  capital : ℚ
  positions : List (String × Position)
  trades : List Trade
  equity_curve : List ℚ
deriving DecidableEq

/-- The existing-position branch of the signal loop (backtest_engine.py
lines 166–207): compute `new_size`, book realized PnL and a trade record
when the fill closes or reduces the position, delete the position when the
new size is within `tol` of flat, otherwise re-average the entry price on
same-direction increases and re-mark the position at the execution price. -/
def updateExisting (timestamp : ℕ) (st : BTState) (sig : Signal)
    (position : Position) (execution_price commission_cost : ℚ) : BTState :=
  let new_size :=
    if sig.side = .buy then position.size + sig.quantity
    else position.size - sig.quantity
  let reducing :=
    (0 < position.size ∧ new_size < position.size) ∨
      (position.size < 0 ∧ position.size < new_size)
  let closed_size := |position.size - new_size|
  let realized_pnl := closed_size * (execution_price - position.entry_price)
  let position1 :=
    if reducing then
      { position with realized_pnl := position.realized_pnl + realized_pnl }
    else position
  let capital1 := if reducing then st.capital + realized_pnl else st.capital
  let trades1 :=
    if reducing then
      st.trades ++ [{ timestamp := timestamp, symbol := sig.symbol,
                      side := sig.side, quantity := closed_size,
                      entry_price := position1.entry_price,
                      exit_price := execution_price, pnl := realized_pnl,
                      commission := commission_cost }]
    else st.trades
  if |new_size| < tol then
    { st with capital := capital1, trades := trades1,
              positions := eraseAssoc st.positions sig.symbol }
  else
    let adding :=
      (0 < position.size ∧ position.size < new_size) ∨
        (position.size < 0 ∧ new_size < position.size)
    let position2 :=
      if adding then
        { position1 with entry_price :=
            (|position.size| * position1.entry_price +
              sig.quantity * execution_price) / |new_size| }
      else position1
    let position3 :=
      Position.update_pnl
        { position2 with size := new_size, mark_price := execution_price }
    { st with capital := capital1, trades := trades1,
              positions := updateAssoc st.positions sig.symbol position3 }

/-- One admitted signal against a known close price (backtest_engine.py
lines 141–213): slippage-adjusted execution, the BUY admission-control
gate, position update, then the capital update. -/
def executeSignal (e : BacktestEngine) (timestamp : ℕ) (st : BTState)
    (sig : Signal) (current_price : ℚ) : BTState :=
  let execution_price := e.apply_slippage current_price sig.side sig.quantity
  let cost := execution_price * sig.quantity
  let commission_cost := cost * e.commission
  let total_cost := cost + commission_cost
  if sig.side = .buy ∧ st.capital < total_cost then st
  else
    let st1 :=
      match lookupPos st.positions sig.symbol with
      | none =>
        let opened : Position :=
          { symbol := sig.symbol
            size :=
              if sig.side = OrderSide.buy then sig.quantity else -sig.quantity
            entry_price := execution_price
            mark_price := execution_price }
        { st with positions := updateAssoc st.positions sig.symbol opened }
      | some position =>
        updateExisting timestamp st sig position execution_price
          commission_cost
    if sig.side = .buy then { st1 with capital := st1.capital - total_cost }
    else { st1 with capital := st1.capital + (cost - commission_cost) }

/-- One signal of the per-timestamp signal loop: a signal whose symbol has
no price row at this timestamp is skipped (`continue`). -/
def processSignal (e : BacktestEngine) (current_prices : List PriceRow)
    (timestamp : ℕ) (st : BTState) (sig : Signal) : BTState :=
  match current_prices.find? (fun r => r.symbol == sig.symbol) with
  | none => st
  | some row => executeSignal e timestamp st sig row.close

/-- The funding charge applied every third processed timestamp:
`|size| * mark_price * funding_rate` per open position; longs pay, shorts
receive, and the charge accumulates into `funding_paid`. -/
def applyFunding (e : BacktestEngine) (st : BTState) : BTState :=
  let folded := st.positions.foldl
    (fun acc entry =>
      let position := entry.2
      let funding_cost := |position.size| * position.mark_price * e.funding_rate
      ((if 0 < position.size then acc.1 - funding_cost
        else acc.1 + funding_cost),
       acc.2 ++ [(entry.1,
         { position with funding_paid := position.funding_paid + funding_cost })]))
    (st.capital, [])
  { st with capital := folded.1, positions := folded.2 }

/-- One iteration of the timestamp loop (backtest_engine.py lines 117–231):
re-mark every position that has a price row at this timestamp, run the
signal loop over the signals of this timestamp, apply funding when
`len(equity_curve) % 3 == 0`, and append the equity snapshot
`capital + Σ unrealized_pnl`. -/
def processTimestamp (e : BacktestEngine) (prices : List PriceRow)
    (signals : List Signal) (st : BTState) (timestamp : ℕ) : BTState :=
  let current_prices := prices.filter (fun r => r.timestamp == timestamp)
  let marked := st.positions.map (fun entry =>
    match current_prices.find? (fun r => r.symbol == entry.1) with
    | some row =>
      (entry.1, Position.update_pnl { entry.2 with mark_price := row.close })
    | none => entry)
  let st := { st with positions := marked }
  let current_signals := signals.filter (fun s => s.timestamp == timestamp)
  let st := current_signals.foldl (processSignal e current_prices timestamp) st
  let st := if st.equity_curve.length % 3 == 0 then applyFunding e st else st
  let total_equity :=
    st.positions.foldl (fun acc entry => acc + entry.2.unrealized_pnl)
      st.capital
  { st with equity_curve := st.equity_curve ++ [total_equity] }

/-- Insert a timestamp into a sorted duplicate-free list, keeping it sorted
and duplicate-free. -/
def insertTS (t : ℕ) : List ℕ → List ℕ
  | [] => [t]
  | x :: xs =>
    if t < x then t :: x :: xs
    else if t = x then x :: xs
    else x :: insertTS t xs

/-- The distinct timestamps of the price series in ascending order —
`prices.sort_values("timestamp")["timestamp"].unique()` of the source. -/
def uniqueSortedTimestamps (prices : List PriceRow) : List ℕ :=
  prices.foldl (fun acc r => insertTS r.timestamp acc) []

/-- The state produced by the simulation loop of ``BacktestEngine.run``:
fold the timestamp step over the distinct timestamps, starting from
`capital = initial_capital`, no positions, no trades, and the seeded equity
curve `[initial_capital]`. -/
def runState (e : BacktestEngine) (prices : List PriceRow)
    (signals : List Signal) (initial_capital : ℚ) : BTState :=
  (uniqueSortedTimestamps prices).foldl (processTimestamp e prices signals)
    { capital := initial_capital, positions := [], trades := [],
      equity_curve := [initial_capital] }

/-- The fields of ``BacktestResult`` that are rational-valued functions of
the final state (the Sharpe ratio and drawdown statistics involve
`sqrt`/`std` and are not needed by the properties below). -/
structure BacktestResult where
  initial_capital : ℚ
  final_capital : ℚ
  total_return : ℚ
  total_pnl : ℚ
  total_trades : ℕ
  equity_curve : List ℚ
  trades : List Trade
deriving DecidableEq

/-- Embedding of ``BacktestEngine.run`` (without the optional date filters, i.e. with
`start_date = end_date = None`): raises `BacktestError` on an empty price
series, otherwise runs the simulation loop and assembles the result;
`final_capital` is the last equity value. -/
def BacktestEngine.run (e : BacktestEngine) (prices : List PriceRow)
    (signals : List Signal) (initial_capital : ℚ) :
    Except String BacktestResult :=
  if prices.isEmpty then .error "No price data in date range"
  else
    let st := runState e prices signals initial_capital
    let final_capital := st.equity_curve.getLastD initial_capital
    .ok { initial_capital := initial_capital
          final_capital := final_capital
          total_return := (final_capital - initial_capital) / initial_capital * 100
          total_pnl := final_capital - initial_capital
          total_trades := st.trades.length
          equity_curve := st.equity_curve
          trades := st.trades }

/-! ## The flat-price buy-and-hold scenario

One hundred hourly bars (timestamps `0..99`) at constant `close = 50000`,
a single BUY signal of quantity `1.0` at bar `0`, engine defaults
`slippage = 0.001`, `commission = 0.0002`, `funding_rate = 0.0001`, and
`initial_capital = 100000`. -/

def c2Engine : BacktestEngine := {}

def c2Prices : List PriceRow :=
  (List.range 100).map
    (fun i => { timestamp := i, symbol := "BTC", close := 50000 })

def c2Signals : List Signal :=
  [{ timestamp := 0, symbol := "BTC", side := .buy, quantity := 1 }]

def c2Init : BTState :=
  { capital := 100000, positions := [], trades := [], equity_curve := [100000] }

/-- The invariant the scenario's state keeps from bar `0` on: an empty trade
log, capital bounded by the capital left after the entry fill, and a single
long position of one unit entered at `50000·(1 + 0.001·(1 + 1/100))`. -/
def c2Inv (st : BTState) : Prop :=
  st.trades = [] ∧ st.capital ≤ 499394899 / 10000 ∧
    ∃ mark upnl fp, st.positions =
      [("BTC", { symbol := "BTC", size := 1, entry_price := 100101 / 2,
                 mark_price := mark, unrealized_pnl := upnl,
                 realized_pnl := 0, funding_paid := fp })]

/-! ## Theorems

Batteries marks the `Rat` field operations `@[irreducible]`; concrete
rational evaluation below re-enables their definitional unfolding locally. -/

section Theorems

attribute [local semireducible] Rat.mul Rat.add Rat.sub Rat.inv Rat.ofScientific

/-- A key that is not among the keys of the association list looks up to
`none`. -/
theorem lookupPos_eq_none (ps : List (String × Position)) (sym : String)
    (h : sym ∉ ps.map Prod.fst) : lookupPos ps sym = none := by
  induction ps with
  | nil => rfl
  | cons e ps ih =>
    simp only [List.map_cons, List.mem_cons, not_or] at h
    have hne : e.1 ≠ sym := fun he => h.1 he.symm
    simp only [lookupPos, if_neg hne]
    exact ih h.2

/-- Writing a key makes it look up to the written position. -/
theorem lookupPos_updateAssoc (ps : List (String × Position)) (sym : String)
    (p : Position) : lookupPos (updateAssoc ps sym p) sym = some p := by
  induction ps with
  | nil => simp [updateAssoc, lookupPos]
  | cons e ps ih =>
    by_cases h : e.1 = sym
    · simp [updateAssoc, h, lookupPos]
    · simp [updateAssoc, h, lookupPos, ih]

/-- Deleting a key from an association list with distinct keys makes it
look up to `none`. -/
theorem lookupPos_eraseAssoc (ps : List (String × Position)) (sym : String)
    (h : (ps.map Prod.fst).Nodup) : lookupPos (eraseAssoc ps sym) sym = none := by
  induction ps with
  | nil => rfl
  | cons e ps ih =>
    simp only [List.map_cons, List.nodup_cons] at h
    by_cases he : e.1 = sym
    · simp only [eraseAssoc, if_pos he]
      exact lookupPos_eq_none ps sym (he ▸ h.1)
    · simp only [eraseAssoc, if_neg he, lookupPos, if_neg he]
      exact ih h.2

/-- C7 (amended): `should_adjust_quotes` returns `true` whenever a current
price is absent; with both present and positive it returns `true` exactly
when the relative change of the bid or of the ask — each divided by the
current price — exceeds the threshold. -/
theorem c7_should_adjust_quotes (sym : String) (cb ca nb na m : ℚ)
    (hcb : 0 < cb) (hca : 0 < ca) :
    (∀ x nb2 na2 m2, should_adjust_quotes sym none x nb2 na2 m2 = true ∧
      should_adjust_quotes sym x none nb2 na2 m2 = true) ∧
    (should_adjust_quotes sym (some cb) (some ca) nb na m = true ↔
      m < |nb - cb| / cb ∨ m < |na - ca| / ca) := by
  constructor
  · intro x nb2 na2 m2
    constructor
    · rfl
    · cases x <;> rfl
  · unfold should_adjust_quotes
    simp [hcb, hca]

/-- C7 (counterexample): with a negative resting bid the source treats the
relative change as infinite and returns `true`, while the claimed
divide-by-current formula is below the threshold. -/
theorem c7_counterexample :
    should_adjust_quotes "BTC" (some (-1)) (some 1) (-1) 1 (1 / 1000) = true ∧
    ¬((1 : ℚ) / 1000 < |(-1 : ℚ) - (-1)| / (-1) ∨
      (1 : ℚ) / 1000 < |(1 : ℚ) - 1| / 1) := by
  decide

/-- C7 (witness): a one-tick bid move against a resting quote at price 1
triggers an adjustment. -/
theorem c7_witness :
    should_adjust_quotes "BTC" (some 1) (some 1) 2 1 (1 / 1000) = true :=
  (c7_should_adjust_quotes "BTC" 1 1 2 1 (1 / 1000) (by norm_num)
    (by norm_num)).2.mpr (by decide)

/-- C3: a BUY signal whose total cost (execution price times quantity, plus
commission) exceeds the available capital is a silent no-op: the state —
capital, positions and trade log — is returned unchanged and the signal
loop continues. -/
theorem c3_buy_insufficient_capital_noop
    (e : BacktestEngine) (cp : List PriceRow) (t : ℕ) (st : BTState)
    (sig : Signal) (row : PriceRow)
    (hside : sig.side = OrderSide.buy)
    (hrow : cp.find? (fun r => r.symbol == sig.symbol) = some row)
    (hcap : st.capital <
      e.apply_slippage row.close sig.side sig.quantity * sig.quantity +
        e.apply_slippage row.close sig.side sig.quantity * sig.quantity *
          e.commission) :
    processSignal e cp t st sig = st := by
  unfold processSignal
  rw [hrow]
  show executeSignal e t st sig row.close = st
  unfold executeSignal
  rw [if_pos ⟨hside, hcap⟩]

/-- C3 (witness): with one unit of capital, a BUY of ten units at close 100
is skipped and leaves the state untouched. -/
theorem c3_witness :
    processSignal {} [{ timestamp := 0, symbol := "A", close := 100 }] 0
      { capital := 1, positions := [], trades := [], equity_curve := [1] }
      { timestamp := 0, symbol := "A", side := .buy, quantity := 10 } =
    { capital := 1, positions := [], trades := [], equity_curve := [1] } :=
  c3_buy_insufficient_capital_noop {}
    [{ timestamp := 0, symbol := "A", close := 100 }] 0
    { capital := 1, positions := [], trades := [], equity_curve := [1] }
    { timestamp := 0, symbol := "A", side := .buy, quantity := 10 }
    { timestamp := 0, symbol := "A", close := 100 } rfl (by decide) (by decide)

/-- Reducing a branch on the sell constructor. -/
theorem sell_ite {α : Sort _} (a b : α) :
    (if OrderSide.sell = OrderSide.buy then a else b) = b := rfl

/-- Reducing a branch on the buy constructor. -/
theorem buy_ite {α : Sort _} (a b : α) :
    (if OrderSide.buy = OrderSide.buy then a else b) = a := rfl

/-- Reducing `processSignal` once the price row is found. -/
theorem processSignal_some (e : BacktestEngine) (cp : List PriceRow) (t : ℕ)
    (st : BTState) (sig : Signal) (row : PriceRow)
    (hrow : cp.find? (fun r => r.symbol == sig.symbol) = some row) :
    processSignal e cp t st sig = executeSignal e t st sig row.close := by
  unfold processSignal
  rw [hrow]

/-- C8: the admission check covers only BUY signals.  A SELL with a price
row at its timestamp always executes, whatever the current capital —
opening a short when no position exists, extending a short when one does —
and credits `cost - commission_cost` to capital, leaving the trade log
unchanged. -/
theorem c8_sell_always_executes
    (e : BacktestEngine) (cp : List PriceRow) (t ts2 : ℕ) (st : BTState)
    (sym : String) (q : ℚ) (row : PriceRow)
    (hrow : cp.find? (fun r => r.symbol == sym) = some row)
    (hq : tol ≤ q)
    (hpos : lookupPos st.positions sym = none ∨
      ∃ p, lookupPos st.positions sym = some p ∧ p.size < 0) :
    (processSignal e cp t st ⟨ts2, sym, .sell, q⟩).capital =
      st.capital + (e.apply_slippage row.close .sell q * q -
        e.apply_slippage row.close .sell q * q * e.commission) ∧
    (processSignal e cp t st ⟨ts2, sym, .sell, q⟩).trades = st.trades ∧
    (lookupPos st.positions sym = none →
      ∃ p2, lookupPos (processSignal e cp t st ⟨ts2, sym, .sell, q⟩).positions
        sym = some p2 ∧ p2.size = -q) ∧
    (∀ p, lookupPos st.positions sym = some p → p.size < 0 →
      ∃ p2, lookupPos (processSignal e cp t st ⟨ts2, sym, .sell, q⟩).positions
        sym = some p2 ∧ p2.size = p.size - q) := by
  have h0 : 0 < q := lt_of_lt_of_le (by norm_num [tol]) hq
  rw [processSignal_some e cp t st _ row hrow]
  rcases hpos with hnone | ⟨p, hp, hneg⟩
  · simp only [executeSignal, sell_ite, hnone]
    refine ⟨rfl, rfl, fun _ => ⟨_, lookupPos_updateAssoc _ _ _, rfl⟩, ?_⟩
    intro p hp
    exact absurd hp (by simp)
  · have hred : ¬((0 < p.size ∧ p.size - q < p.size) ∨
        (p.size < 0 ∧ p.size < p.size - q)) := by
      rintro (⟨h1, -⟩ | ⟨-, h2⟩)
      · exact absurd h1 (not_lt.2 hneg.le)
      · exact absurd h2 (not_lt.2 (by linarith))
    have hflat : ¬(|p.size - q| < tol) := by
      rw [not_lt, abs_of_nonpos (by linarith)]
      linarith [hq]
    have hadd : (0 < p.size ∧ p.size < p.size - q) ∨
        (p.size < 0 ∧ p.size - q < p.size) := Or.inr ⟨hneg, by linarith⟩
    simp only [executeSignal, updateExisting, sell_ite, hp, if_neg hred,
      if_neg hflat, if_pos hadd]
    refine ⟨rfl, rfl, ?_, ?_⟩
    · intro hnone
      exact absurd hnone (by simp)
    · intro p2 hp2 _
      obtain rfl : p = p2 := by injection hp2
      refine ⟨_, lookupPos_updateAssoc _ _ _, ?_⟩
      unfold Position.update_pnl
      rw [if_neg hflat]

/-- C8 (witness): with capital already negative (−1000), a SELL of one unit
at close 100 still executes, opening a short of size −1 and crediting
`cost - commission_cost`. -/
theorem c8_witness :
    (processSignal {} [{ timestamp := 0, symbol := "A", close := 100 }] 0
        { capital := -1000, positions := [], trades := [],
          equity_curve := [] }
        { timestamp := 0, symbol := "A", side := .sell,
          quantity := 1 }).capital =
      -1000 + (({} : BacktestEngine).apply_slippage 100 .sell 1 * 1 -
        ({} : BacktestEngine).apply_slippage 100 .sell 1 * 1 *
          ({} : BacktestEngine).commission) ∧
    (processSignal {} [{ timestamp := 0, symbol := "A", close := 100 }] 0
        { capital := -1000, positions := [], trades := [],
          equity_curve := [] }
        { timestamp := 0, symbol := "A", side := .sell,
          quantity := 1 }).trades = [] ∧
    (lookupPos
        (processSignal {} [{ timestamp := 0, symbol := "A", close := 100 }] 0
          { capital := -1000, positions := [], trades := [],
            equity_curve := [] }
          { timestamp := 0, symbol := "A", side := .sell,
            quantity := 1 }).positions "A").map Position.size = some (-1) := by
  obtain ⟨h1, h2, h3, -⟩ := c8_sell_always_executes {}
    [{ timestamp := 0, symbol := "A", close := 100 }] 0 0
    { capital := -1000, positions := [], trades := [], equity_curve := [] }
    "A" 1 { timestamp := 0, symbol := "A", close := 100 }
    (by decide) (by decide) (Or.inl rfl)
  obtain ⟨p2, hp2, hsz⟩ := h3 rfl
  exact ⟨h1, h2, by rw [hp2]; exact congrArg some hsz⟩

/-- C9: a fill that flips the sign of a position without closing it keeps
the old average entry price — the re-averaging runs only on same-direction
increases — and the surviving position's unrealized PnL is recomputed from
that retained entry price at the execution price. -/
theorem c9_flip_keeps_entry_price
    (e : BacktestEngine) (cp : List PriceRow) (t ts2 : ℕ) (st : BTState)
    (sym : String) (q : ℚ) (side : OrderSide) (row : PriceRow) (p : Position)
    (new_size : ℚ)
    (hrow : cp.find? (fun r => r.symbol == sym) = some row)
    (hlook : lookupPos st.positions sym = some p)
    (hns : new_size =
      if side = OrderSide.buy then p.size + q else p.size - q)
    (hflip : (0 < p.size ∧ new_size < 0) ∨ (p.size < 0 ∧ 0 < new_size))
    (hsz : tol ≤ |new_size|)
    (hadm : side = OrderSide.buy →
      e.apply_slippage row.close side q * q +
        e.apply_slippage row.close side q * q * e.commission ≤ st.capital) :
    ∃ p2, lookupPos
        (processSignal e cp t st ⟨ts2, sym, side, q⟩).positions sym =
          some p2 ∧
      p2.entry_price = p.entry_price ∧ p2.size = new_size ∧
      p2.unrealized_pnl =
        new_size * (e.apply_slippage row.close side q - p.entry_price) := by
  rw [processSignal_some e cp t st _ row hrow]
  have hflat : ¬(|new_size| < tol) := not_lt.2 hsz
  cases side with
  | sell =>
    rw [sell_ite] at hns
    subst hns
    have hred : (0 < p.size ∧ p.size - q < p.size) ∨
        (p.size < 0 ∧ p.size < p.size - q) := by
      rcases hflip with ⟨h1, h2⟩ | ⟨h1, h2⟩
      · exact Or.inl ⟨h1, by linarith⟩
      · exact Or.inr ⟨h1, by linarith⟩
    have hadd2 : ¬((0 < p.size ∧ p.size < p.size - q) ∨
        (p.size < 0 ∧ p.size - q < p.size)) := by
      rcases hflip with ⟨h1, h2⟩ | ⟨h1, h2⟩ <;>
        rintro (⟨h3, h4⟩ | ⟨h3, h4⟩) <;> linarith
    simp only [executeSignal, updateExisting, sell_ite, hlook,
      if_pos hred, if_neg hflat, if_neg hadd2]
    refine ⟨_, lookupPos_updateAssoc _ _ _, ?_, ?_, ?_⟩ <;>
      (unfold Position.update_pnl; rw [if_neg hflat])
  | buy =>
    rw [buy_ite] at hns
    subst hns
    have hlt : ¬st.capital <
        e.apply_slippage row.close OrderSide.buy q * q +
          e.apply_slippage row.close OrderSide.buy q * q * e.commission :=
      not_lt.2 (hadm rfl)
    have hred : (0 < p.size ∧ p.size + q < p.size) ∨
        (p.size < 0 ∧ p.size < p.size + q) := by
      rcases hflip with ⟨h1, h2⟩ | ⟨h1, h2⟩
      · exact Or.inl ⟨h1, by linarith⟩
      · exact Or.inr ⟨h1, by linarith⟩
    have hadd2 : ¬((0 < p.size ∧ p.size < p.size + q) ∨
        (p.size < 0 ∧ p.size + q < p.size)) := by
      rcases hflip with ⟨h1, h2⟩ | ⟨h1, h2⟩ <;>
        rintro (⟨h3, h4⟩ | ⟨h3, h4⟩) <;> linarith
    simp only [executeSignal, updateExisting, buy_ite, eq_self_iff_true,
      if_true, true_and, hlook, if_neg hlt, if_pos hred, if_neg hflat,
      if_neg hadd2]
    refine ⟨_, lookupPos_updateAssoc _ _ _, ?_, ?_, ?_⟩ <;>
      (unfold Position.update_pnl; rw [if_neg hflat])

/-- C9 (witness): a long of one unit at entry 10, hit by a SELL of two
units, flips to a short of one unit that keeps entry price 10. -/
theorem c9_witness :
    ∃ p2, lookupPos
        (processSignal {} [{ timestamp := 0, symbol := "A", close := 100 }] 0
          { capital := 0,
            positions := [("A", { symbol := "A", size := 1, entry_price := 10,
                                  mark_price := 10, unrealized_pnl := 0,
                                  realized_pnl := 0, funding_paid := 0 })],
            trades := [], equity_curve := [] }
          { timestamp := 0, symbol := "A", side := .sell,
            quantity := 2 }).positions "A" = some p2 ∧
      p2.entry_price = 10 ∧ p2.size = -1 ∧
      p2.unrealized_pnl =
        -1 * (({} : BacktestEngine).apply_slippage 100 .sell 2 - 10) :=
  c9_flip_keeps_entry_price {}
    [{ timestamp := 0, symbol := "A", close := 100 }] 0 0
    { capital := 0,
      positions := [("A", { symbol := "A", size := 1, entry_price := 10,
                            mark_price := 10, unrealized_pnl := 0,
                            realized_pnl := 0, funding_paid := 0 })],
      trades := [], equity_curve := [] }
    "A" 2 .sell { timestamp := 0, symbol := "A", close := 100 }
    { symbol := "A", size := 1, entry_price := 10, mark_price := 10,
      unrealized_pnl := 0, realized_pnl := 0, funding_paid := 0 }
    (-1) (by decide) (by decide) (by decide) (Or.inl (by decide))
    (by decide) (fun h => OrderSide.noConfusion h)

/-- C4: from a state with no position in the symbol, an admitted BUY of
quantity `Q` opens a position of size `Q` and appends no trade record; a
later SELL of quantity `Q` against any state that still holds a position of
size `Q` in the symbol appends exactly one trade record, whose `quantity`
is `Q`, and removes the symbol from the positions mapping. -/
theorem c4_round_trip
    (e : BacktestEngine) (cp1 cp2 : List PriceRow) (t1 t2 ts1 ts2 : ℕ)
    (st : BTState) (sym : String) (Q : ℚ) (row1 row2 : PriceRow)
    (hQ : 0 < Q)
    (hnone : lookupPos st.positions sym = none)
    (hrow1 : cp1.find? (fun r => r.symbol == sym) = some row1)
    (hadm : e.apply_slippage row1.close .buy Q * Q +
      e.apply_slippage row1.close .buy Q * Q * e.commission ≤ st.capital) :
    (∃ pB, lookupPos
        (processSignal e cp1 t1 st ⟨ts1, sym, .buy, Q⟩).positions sym =
          some pB ∧ pB.size = Q) ∧
    (processSignal e cp1 t1 st ⟨ts1, sym, .buy, Q⟩).trades = st.trades ∧
    (∀ st2 p2, (st2.positions.map Prod.fst).Nodup →
      lookupPos st2.positions sym = some p2 → p2.size = Q →
      cp2.find? (fun r => r.symbol == sym) = some row2 →
      ∃ tr, (processSignal e cp2 t2 st2 ⟨ts2, sym, .sell, Q⟩).trades =
          st2.trades ++ [tr] ∧ tr.quantity = Q ∧
        lookupPos
          (processSignal e cp2 t2 st2 ⟨ts2, sym, .sell, Q⟩).positions sym =
            none) := by
  have hlt : ¬st.capital < e.apply_slippage row1.close .buy Q * Q +
      e.apply_slippage row1.close .buy Q * Q * e.commission := not_lt.2 hadm
  refine ⟨?_, ?_, ?_⟩
  · rw [processSignal_some e cp1 t1 st _ row1 hrow1]
    simp only [executeSignal, buy_ite, eq_self_iff_true, if_true, true_and,
      hnone, if_neg hlt]
    exact ⟨_, lookupPos_updateAssoc _ _ _, rfl⟩
  · rw [processSignal_some e cp1 t1 st _ row1 hrow1]
    simp only [executeSignal, buy_ite, eq_self_iff_true, if_true, true_and,
      hnone, if_neg hlt]
  · intro st2 p2 hnodup hp2 hsize hrow2
    rw [processSignal_some e cp2 t2 st2 _ row2 hrow2]
    have hred : (0 < p2.size ∧ p2.size - Q < p2.size) ∨
        (p2.size < 0 ∧ p2.size < p2.size - Q) :=
      Or.inl ⟨hsize ▸ hQ, by linarith⟩
    have hflat : |p2.size - Q| < tol := by
      rw [hsize, sub_self, abs_zero]
      norm_num [tol]
    simp only [executeSignal, updateExisting, sell_ite, hp2, if_pos hred,
      if_pos hflat]
    refine ⟨_, rfl, ?_, lookupPos_eraseAssoc _ _ hnodup⟩
    show |p2.size - (p2.size - Q)| = Q
    rw [sub_sub_cancel]
    exact abs_of_pos hQ

/-- C4 (witness): buying one unit of "A" at close 100 with ample capital
opens a size-1 position and logs nothing; selling one unit against a
size-1 position closes it, logging exactly one trade of quantity 1. -/
theorem c4_witness :
    (processSignal {} [{ timestamp := 0, symbol := "A", close := 100 }] 0
        { capital := 100000, positions := [], trades := [],
          equity_curve := [] }
        { timestamp := 0, symbol := "A", side := .buy,
          quantity := 1 }).trades = [] ∧
    ((processSignal {} [{ timestamp := 0, symbol := "A", close := 100 }] 0
        { capital := 0,
          positions := [("A", { symbol := "A", size := 1, entry_price := 100,
                                mark_price := 100, unrealized_pnl := 0,
                                realized_pnl := 0, funding_paid := 0 })],
          trades := [], equity_curve := [] }
        { timestamp := 0, symbol := "A", side := .sell,
          quantity := 1 }).trades).map Trade.quantity = [1] ∧
    lookupPos
      (processSignal {} [{ timestamp := 0, symbol := "A", close := 100 }] 0
        { capital := 0,
          positions := [("A", { symbol := "A", size := 1, entry_price := 100,
                                mark_price := 100, unrealized_pnl := 0,
                                realized_pnl := 0, funding_paid := 0 })],
          trades := [], equity_curve := [] }
        { timestamp := 0, symbol := "A", side := .sell,
          quantity := 1 }).positions "A" = none := by
  obtain ⟨-, h2, h3⟩ := c4_round_trip {}
    [{ timestamp := 0, symbol := "A", close := 100 }]
    [{ timestamp := 0, symbol := "A", close := 100 }] 0 0 0 0
    { capital := 100000, positions := [], trades := [], equity_curve := [] }
    "A" 1 { timestamp := 0, symbol := "A", close := 100 }
    { timestamp := 0, symbol := "A", close := 100 }
    (by decide) rfl (by decide) (by decide)
  obtain ⟨tr, htr, hq, hgone⟩ := h3
    { capital := 0,
      positions := [("A", { symbol := "A", size := 1, entry_price := 100,
                            mark_price := 100, unrealized_pnl := 0,
                            realized_pnl := 0, funding_paid := 0 })],
      trades := [], equity_curve := [] }
    { symbol := "A", size := 1, entry_price := 100, mark_price := 100,
      unrealized_pnl := 0, realized_pnl := 0, funding_paid := 0 }
    (by decide) rfl rfl (by decide)
  refine ⟨h2, ?_, hgone⟩
  rw [htr]
  simp [hq]

/-- With a positive mid price, `calculate_optimal_spread` never raises. -/
theorem calculate_optimal_spread_ok (p : AvellanedaStoikovParams)
    (mid inventory T : ℝ) (hmid : 0 < mid) :
    ∃ pr, calculate_optimal_spread p mid inventory T = .ok pr := by
  simp only [calculate_optimal_spread, if_neg (not_le.2 hmid)]
  split_ifs <;> exact ⟨_, rfl⟩

/-- Both components of the skewed pre-dampening quantities are clamped at
zero. -/
theorem rawQuantities_nonneg (i m b : ℝ) :
    0 ≤ (rawQuantities i m b).1 ∧ 0 ≤ (rawQuantities i m b).2 := by
  unfold rawQuantities
  split_ifs <;> exact ⟨le_max_left _ _, le_max_left _ _⟩

/-- C1: for valid parameters and a positive mid price (at the default
`time_to_maturity = 1`), `calculate_optimal_spread` returns a bid/ask pair
with `bid < ask` and a quoted spread at least `reservation_spread`. -/
theorem c1_spread_ordering (p : AvellanedaStoikovParams) (hv : p.Valid)
    (mid inventory : ℝ) (hmid : 0 < mid) :
    ∃ bid ask, calculate_optimal_spread p mid inventory 1 = .ok (bid, ask) ∧
      bid < ask ∧ p.reservation_spread ≤ ask - bid := by
  obtain ⟨hg, hs, hl, hrs⟩ := hv
  have hs2 : (0 : ℝ) < p.volatility ^ 2 := pow_pos hs 2
  have hk : 0 < p.arrival_rate / (p.risk_aversion * p.volatility ^ 2) :=
    div_pos hl (mul_pos hg hs2)
  have hS : 0 < calc_optimal_spread p inventory 1 ∧
      p.reservation_spread ≤ calc_optimal_spread p inventory 1 := by
    simp only [calc_optimal_spread, if_pos (And.intro hl hg), if_pos hk]
    refine ⟨lt_of_lt_of_le ?_ (le_max_left _ _), le_max_right _ _⟩
    have hint : 0 ≤ (2 / p.risk_aversion) *
        Real.log (1 + p.risk_aversion /
          (p.arrival_rate / (p.risk_aversion * p.volatility ^ 2))) := by
      refine mul_nonneg (by positivity) (Real.log_nonneg ?_)
      have h1 : 0 ≤ p.risk_aversion /
          (p.arrival_rate / (p.risk_aversion * p.volatility ^ 2)) :=
        le_of_lt (div_pos hg hk)
      linarith
    nlinarith
  simp only [calculate_optimal_spread, if_neg (not_le.2 hmid)]
  have hcond : ¬(calc_reservation_price p mid inventory 1 +
      calc_optimal_spread p inventory 1 / 2 -
      (calc_reservation_price p mid inventory 1 -
        calc_optimal_spread p inventory 1 / 2) < p.reservation_spread) := by
    have he : calc_reservation_price p mid inventory 1 +
        calc_optimal_spread p inventory 1 / 2 -
        (calc_reservation_price p mid inventory 1 -
          calc_optimal_spread p inventory 1 / 2) =
        calc_optimal_spread p inventory 1 := by ring
    rw [he]
    exact not_lt.2 hS.2
  rw [if_neg hcond]
  refine ⟨_, _, rfl, by linarith [hS.1], by linarith [hS.2]⟩

/-- C1 (witness): unit parameters, mid price 1, flat inventory. -/
theorem c1_witness :
    ∃ bid ask, calculate_optimal_spread ⟨1, 1, 1, 0⟩ 1 0 1 = .ok (bid, ask) ∧
      bid < ask ∧
      (⟨1, 1, 1, 0⟩ : AvellanedaStoikovParams).reservation_spread ≤
        ask - bid :=
  c1_spread_ordering ⟨1, 1, 1, 0⟩
    ⟨by norm_num, by norm_num, by norm_num, le_refl 0⟩ 1 0 (by norm_num)

/-- C10: `calculate_optimal_quantities` propagates the `ValueError` of its
internal `calculate_optimal_spread` call when `mid_price ≤ 0`, despite its
own precondition checks covering only `base_quantity` and `max_inventory`;
with `mid_price > 0` (and positive base quantity and max inventory) it
never raises. -/
theorem c10_quantities_raise (p : AvellanedaStoikovParams) (_hv : p.Valid)
    (mid inventory max_inventory base_quantity T : ℝ)
    (hb : 0 < base_quantity) (hm : 0 < max_inventory) :
    (mid ≤ 0 →
      calculate_optimal_quantities p mid inventory max_inventory
        base_quantity T = .error "Mid price must be positive") ∧
    (0 < mid → ∃ qs,
      calculate_optimal_quantities p mid inventory max_inventory
        base_quantity T = .ok qs) := by
  have hbn : ¬base_quantity ≤ 0 := not_le.2 hb
  have hmn : ¬max_inventory ≤ 0 := not_le.2 hm
  constructor
  · intro hmid
    simp only [calculate_optimal_quantities, if_neg hbn, if_neg hmn,
      calculate_optimal_spread, if_pos hmid]
  · intro hmid
    obtain ⟨pr, hok⟩ := calculate_optimal_spread_ok p mid inventory T hmid
    simp only [calculate_optimal_quantities, if_neg hbn, if_neg hmn, hok]
    split_ifs <;> exact ⟨_, rfl⟩

/-- C10 (witness): a negative mid price raises through the internal spread
call even though base quantity and max inventory pass their checks. -/
theorem c10_witness :
    calculate_optimal_quantities ⟨1, 1, 1, 0⟩ (-1) 0 1 1 1 =
      .error "Mid price must be positive" :=
  (c10_quantities_raise ⟨1, 1, 1, 0⟩
    ⟨by norm_num, by norm_num, by norm_num, le_refl 0⟩ (-1) 0 1 1 1
    (by norm_num) (by norm_num)).1 (by norm_num)

/-- C5: on success the quantities are nonnegative; past an inventory
fraction of `0.8` both are the pre-dampening quantities scaled by
`max 0.1 (1 - (fraction - 0.8)·2)`, and at fraction exactly one the scale
is exactly `0.6`. -/
theorem c5_quantities_dampening (p : AvellanedaStoikovParams) (_hv : p.Valid)
    (mid inventory max_inventory base_quantity T : ℝ)
    (hb : 0 < base_quantity) (hm : 0 < max_inventory) (hmid : 0 < mid) :
    (∀ bq aq, calculate_optimal_quantities p mid inventory max_inventory
        base_quantity T = .ok (bq, aq) → 0 ≤ bq ∧ 0 ≤ aq) ∧
    (0.8 < |inventory| / max_inventory →
      calculate_optimal_quantities p mid inventory max_inventory
          base_quantity T =
        .ok ((rawQuantities inventory max_inventory base_quantity).1 *
          max 0.1 (1 - (|inventory| / max_inventory - 0.8) * 2),
          (rawQuantities inventory max_inventory base_quantity).2 *
            max 0.1 (1 - (|inventory| / max_inventory - 0.8) * 2))) ∧
    (|inventory| = max_inventory →
      calculate_optimal_quantities p mid inventory max_inventory
          base_quantity T =
        .ok (0.6 * (rawQuantities inventory max_inventory base_quantity).1,
          0.6 * (rawQuantities inventory max_inventory base_quantity).2)) := by
  have hbn : ¬base_quantity ≤ 0 := not_le.2 hb
  have hmn : ¬max_inventory ≤ 0 := not_le.2 hm
  obtain ⟨pr, hok⟩ := calculate_optimal_spread_ok p mid inventory T hmid
  have hraw := rawQuantities_nonneg inventory max_inventory base_quantity
  rcases hrq : rawQuantities inventory max_inventory base_quantity
    with ⟨rb, ra⟩
  rw [hrq] at hraw
  simp only [calculate_optimal_quantities, if_neg hbn, if_neg hmn, hok,
    if_pos hm, hrq]
  have hscale : ∀ x : ℝ, (0 : ℝ) ≤ max 0.1 x :=
    fun x => le_trans (by norm_num) (le_max_left 0.1 x)
  refine ⟨?_, ?_, ?_⟩
  · intro bq aq h
    split_ifs at h with hf
    · injection h with h'
      rw [Prod.mk.injEq] at h'
      obtain ⟨h1, h2⟩ := h'
      exact ⟨h1 ▸ mul_nonneg hraw.1 (hscale _),
        h2 ▸ mul_nonneg hraw.2 (hscale _)⟩
    · injection h with h'
      rw [Prod.mk.injEq] at h'
      obtain ⟨h1, h2⟩ := h'
      exact ⟨h1 ▸ hraw.1, h2 ▸ hraw.2⟩
  · intro hf
    rw [if_pos hf]
  · intro heq
    have h1 : |inventory| / max_inventory = 1 := by
      rw [heq]
      exact div_self (ne_of_gt hm)
    rw [h1]
    have h08 : (0.8 : ℝ) < 1 := by norm_num
    rw [if_pos h08]
    have hs : max (0.1 : ℝ) (1 - (1 - 0.8) * 2) = 0.6 := by norm_num
    rw [hs, mul_comm rb, mul_comm ra]

/-- C5 (witness): at inventory equal to max inventory the returned pair is
exactly 0.6 times the pre-dampening quantities. -/
theorem c5_witness :
    calculate_optimal_quantities ⟨1, 1, 1, 0⟩ 1 1 1 1 1 =
      .ok (0.6 * (rawQuantities 1 1 1).1, 0.6 * (rawQuantities 1 1 1).2) :=
  (c5_quantities_dampening ⟨1, 1, 1, 0⟩
    ⟨by norm_num, by norm_num, by norm_num, le_refl 0⟩ 1 1 1 1 1
    (by norm_num) (by norm_num) (by norm_num)).2.2 (by norm_num)

/-- Executing a signal never touches the equity curve. -/
theorem equity_executeSignal (e : BacktestEngine) (t : ℕ) (st : BTState)
    (sig : Signal) (price : ℚ) :
    (executeSignal e t st sig price).equity_curve = st.equity_curve := by
  simp only [executeSignal, updateExisting]
  repeat' split
  all_goals rfl

/-- Processing a signal never touches the equity curve. -/
theorem equity_processSignal (e : BacktestEngine) (cp : List PriceRow)
    (t : ℕ) (st : BTState) (sig : Signal) :
    (processSignal e cp t st sig).equity_curve = st.equity_curve := by
  unfold processSignal
  cases hf : cp.find? (fun r => r.symbol == sig.symbol) with
  | none => rfl
  | some row => exact equity_executeSignal e t st sig row.close

/-- The signal loop never touches the equity curve. -/
theorem equity_foldl_signals (e : BacktestEngine) (cp : List PriceRow)
    (t : ℕ) (sigs : List Signal) (st : BTState) :
    (sigs.foldl (processSignal e cp t) st).equity_curve = st.equity_curve := by
  induction sigs generalizing st with
  | nil => rfl
  | cons s ss ih => rw [List.foldl_cons, ih, equity_processSignal]

/-- The funding step never touches the equity curve. -/
theorem equity_funding_ite (e : BacktestEngine) (c : Prop) [Decidable c]
    (Y : BTState) :
    (if c then applyFunding e Y else Y).equity_curve = Y.equity_curve := by
  split
  · rfl
  · rfl

/-- One timestamp step appends exactly one equity snapshot. -/
theorem equity_processTimestamp (e : BacktestEngine) (prices : List PriceRow)
    (signals : List Signal) (st : BTState) (t : ℕ) :
    ∃ x, (processTimestamp e prices signals st t).equity_curve =
      st.equity_curve ++ [x] := by
  simp only [processTimestamp]
  rw [equity_funding_ite, equity_foldl_signals]
  exact ⟨_, rfl⟩

/-- The timestamp loop appends one equity entry per processed timestamp. -/
theorem equity_foldl_timestamps (e : BacktestEngine) (prices : List PriceRow)
    (signals : List Signal) (ts : List ℕ) (st : BTState) :
    ∃ l, (ts.foldl (processTimestamp e prices signals) st).equity_curve =
      st.equity_curve ++ l ∧ l.length = ts.length := by
  induction ts generalizing st with
  | nil => exact ⟨[], by simp⟩
  | cons t ts ih =>
    obtain ⟨x, hx⟩ := equity_processTimestamp e prices signals st t
    obtain ⟨l, hl, hlen⟩ := ih (processTimestamp e prices signals st t)
    refine ⟨[x] ++ l, ?_, by simp [hlen]⟩
    rw [List.foldl_cons, hl, hx, List.append_assoc]

/-- Membership in an ordered duplicate-free insert. -/
theorem mem_insertTS (a t : ℕ) (l : List ℕ) :
    a ∈ insertTS t l ↔ a = t ∨ a ∈ l := by
  induction l with
  | nil => simp [insertTS]
  | cons x xs ih =>
    unfold insertTS
    split_ifs with h1 h2
    · simp [List.mem_cons]
    · subst h2
      simp [List.mem_cons]
      try tauto
    · simp only [List.mem_cons, ih]
      tauto

/-- The ordered duplicate-free insert preserves strict sortedness. -/
theorem sorted_insertTS (t : ℕ) (l : List ℕ)
    (h : List.Sorted (· < ·) l) :
    List.Sorted (· < ·) (insertTS t l) := by
  induction l with
  | nil => simp [insertTS]
  | cons x xs ih =>
    rw [List.sorted_cons] at h
    unfold insertTS
    split_ifs with h1 h2
    · rw [List.sorted_cons]
      refine ⟨?_, List.sorted_cons.mpr h⟩
      intro b hb
      rcases List.mem_cons.mp hb with rfl | hb
      · exact h1
      · exact lt_trans h1 (h.1 b hb)
    · exact List.sorted_cons.mpr h
    · rw [List.sorted_cons]
      have hx : x < t := by omega
      refine ⟨?_, ih h.2⟩
      intro b hb
      rcases (mem_insertTS b t xs).mp hb with rfl | hb
      · exact hx
      · exact h.1 b hb

/-- The ordered duplicate-free insert inserts into the set of elements. -/
theorem toFinset_insertTS (t : ℕ) (l : List ℕ) :
    (insertTS t l).toFinset = insert t l.toFinset := by
  induction l with
  | nil => simp [insertTS]
  | cons x xs ih =>
    unfold insertTS
    split_ifs with h1 h2
    · simp
    · subst h2
      simp
    · simp only [List.toFinset_cons, ih]
      rw [Finset.Insert.comm]

/-- The distinct-timestamp extraction is strictly sorted and carries
exactly the set of timestamps of the price series. -/
theorem uniqueSortedTimestamps_spec (prices : List PriceRow) :
    List.Sorted (· < ·) (uniqueSortedTimestamps prices) ∧
    (uniqueSortedTimestamps prices).toFinset =
      (prices.map PriceRow.timestamp).toFinset := by
  suffices h : ∀ acc : List ℕ, List.Sorted (· < ·) acc →
      List.Sorted (· < ·)
        (prices.foldl (fun a r => insertTS r.timestamp a) acc) ∧
      (prices.foldl (fun a r => insertTS r.timestamp a) acc).toFinset =
        acc.toFinset ∪ (prices.map PriceRow.timestamp).toFinset by
    have h0 := h [] (by simp)
    simpa [uniqueSortedTimestamps] using h0
  induction prices with
  | nil =>
    intro acc ha
    simpa using ha
  | cons r rs ih =>
    intro acc ha
    have h1 := ih (insertTS r.timestamp acc) (sorted_insertTS _ _ ha)
    refine ⟨h1.1, ?_⟩
    rw [List.foldl_cons, h1.2, toFinset_insertTS, List.map_cons,
      List.toFinset_cons, Finset.insert_union, Finset.union_insert]

/-- The number of distinct timestamps, as the length of the sorted
deduplicated list. -/
theorem length_uniqueSortedTimestamps (prices : List PriceRow) :
    (uniqueSortedTimestamps prices).length =
      (prices.map PriceRow.timestamp).toFinset.card := by
  obtain ⟨hs, hf⟩ := uniqueSortedTimestamps_spec prices
  rw [← hf, List.toFinset_card_of_nodup hs.nodup]

/-- C6: a successful run seeds the equity curve with the initial capital —
whatever the signals — and produces one entry per distinct processed
timestamp plus that seed. -/
theorem c6_equity_seed_and_length (e : BacktestEngine)
    (prices : List PriceRow) (signals : List Signal) (initial_capital : ℚ)
    (h : prices ≠ []) :
    ∃ r, e.run prices signals initial_capital = .ok r ∧
      r.equity_curve.head? = some initial_capital ∧
      r.equity_curve.length =
        (prices.map PriceRow.timestamp).toFinset.card + 1 := by
  have hne : ¬(prices.isEmpty = true) := by
    simpa [List.isEmpty_iff] using h
  obtain ⟨l, hl, hlen⟩ := equity_foldl_timestamps e prices signals
    (uniqueSortedTimestamps prices)
    { capital := initial_capital, positions := [], trades := [],
      equity_curve := [initial_capital] }
  unfold BacktestEngine.run
  rw [if_neg hne]
  refine ⟨_, rfl, ?_, ?_⟩
  · show (runState e prices signals initial_capital).equity_curve.head? =
      some initial_capital
    unfold runState
    rw [hl]
    rfl
  · show (runState e prices signals initial_capital).equity_curve.length =
      (prices.map PriceRow.timestamp).toFinset.card + 1
    unfold runState
    rw [hl]
    simp [hlen, length_uniqueSortedTimestamps, Nat.add_comm]

/-- C6 (witness): a single price bar with no signals yields the two-entry
equity curve seeded by the initial capital. -/
theorem c6_witness :
    ([{ timestamp := 0, symbol := "A", close := 1 }] : List PriceRow) ≠ [] ∧
    ∃ r, BacktestEngine.run {}
        [{ timestamp := 0, symbol := "A", close := 1 }] [] 5 = .ok r ∧
      r.equity_curve.head? = some 5 ∧
      r.equity_curve.length =
        (([{ timestamp := 0, symbol := "A", close := 1 }] :
          List PriceRow).map PriceRow.timestamp).toFinset.card + 1 :=
  ⟨by decide, c6_equity_seed_and_length {}
    [{ timestamp := 0, symbol := "A", close := 1 }] [] 5 (by decide)⟩

/-- Filtering the constant-price series for one timestamp yields exactly
its bar, when in range. -/
theorem filter_range_map (n t : ℕ) :
    (((List.range n).map (fun i =>
        ({ timestamp := i, symbol := "BTC", close := 50000 } : PriceRow))).filter
      (fun r => r.timestamp == t)) =
    if t < n then [{ timestamp := t, symbol := "BTC", close := 50000 }]
    else [] := by
  induction n with
  | zero => simp
  | succ n ih =>
    rw [List.range_succ, List.map_append, List.filter_append, ih]
    by_cases h : t < n
    · rw [if_pos h, if_pos (Nat.lt_succ_of_lt h)]
      have hne : ((n : ℕ) == t) = false := by
        rw [beq_eq_false_iff_ne]
        omega
      simp [List.filter, hne]
    · by_cases h2 : t = n
      · subst h2
        rw [if_neg h, if_pos (Nat.lt_succ_self t)]
        simp [List.filter]
      · rw [if_neg h, if_neg (by omega)]
        have hne : ((n : ℕ) == t) = false := by
          rw [beq_eq_false_iff_ne]
          omega
        simp [List.filter, hne]

/-- Away from bar zero the scenario has no signals. -/
theorem c2_signals_filter (t : ℕ) (ht : t ≠ 0) :
    c2Signals.filter (fun s => s.timestamp == t) = [] := by
  have hne : ((0 : ℕ) == t) = false := by
    rw [beq_eq_false_iff_ne]
    omega
  simp [c2Signals, List.filter, hne]

/-- One scenario bar after the entry: the invariant is preserved, capital
does not increase, and the appended equity entry is the new capital and the
constant unrealized loss of `-101/2`. -/
theorem c2_step (t : ℕ) (ht0 : t ≠ 0) (ht : t < 100) (st : BTState)
    (h : c2Inv st) :
    c2Inv (processTimestamp c2Engine c2Prices c2Signals st t) ∧
    (processTimestamp c2Engine c2Prices c2Signals st t).capital ≤
      st.capital ∧
    (processTimestamp c2Engine c2Prices c2Signals st t).equity_curve =
      st.equity_curve ++
        [(processTimestamp c2Engine c2Prices c2Signals st t).capital -
          101 / 2] := by
  obtain ⟨htr, hcap, mark, upnl, fp, hpos⟩ := h
  have hpf : c2Prices.filter (fun r => r.timestamp == t) =
      [{ timestamp := t, symbol := "BTC", close := 50000 }] := by
    unfold c2Prices
    rw [filter_range_map, if_pos ht]
  have hsf : c2Signals.filter (fun s => s.timestamp == t) = [] :=
    c2_signals_filter t ht0
  have hfind : List.find? (fun r => r.symbol == "BTC")
      [({ timestamp := t, symbol := "BTC", close := 50000 } : PriceRow)] =
      some { timestamp := t, symbol := "BTC", close := 50000 } := rfl
  have hmark : ¬(|(1 : ℚ)| < tol) := by norm_num [tol]
  simp only [processTimestamp, hpf, hsf, hpos, List.map_cons, List.map_nil,
    List.foldl_nil, hfind, Position.update_pnl, if_neg hmark]
  have harith : ∀ c : ℚ, c + 1 * (50000 - 100101 / 2) = c - 101 / 2 := by
    intro c
    ring
  unfold c2Inv
  split_ifs with hfund
  · simp only [applyFunding, List.foldl_cons, List.foldl_nil, c2Engine, htr,
      List.nil_append]
    rw [if_pos (show (0 : ℚ) < 1 by norm_num)]
    have h5 : |(1 : ℚ)| * 50000 * 1e-4 = 5 := by norm_num
    rw [h5, harith]
    exact ⟨⟨trivial, by linarith, 50000, 1 * (50000 - 100101 / 2), fp + 5,
      rfl⟩, by linarith, rfl⟩
  · simp only [applyFunding, List.foldl_cons, List.foldl_nil, c2Engine, htr,
      List.nil_append]
    rw [harith]
    exact ⟨⟨trivial, hcap, 50000, 1 * (50000 - 100101 / 2), fp, rfl⟩,
      le_refl _, rfl⟩

/-- Folding the scenario steps over signal-free bars keeps the invariant,
and — when at least one bar is processed — the last equity entry is the
final capital plus the constant unrealized loss. -/
theorem c2_fold (ts : List ℕ) (hts : ∀ t ∈ ts, t ≠ 0 ∧ t < 100)
    (st : BTState) (h : c2Inv st) :
    c2Inv (ts.foldl (processTimestamp c2Engine c2Prices c2Signals) st) ∧
    ((ts.foldl (processTimestamp c2Engine c2Prices c2Signals)
        st).equity_curve = st.equity_curve ∧ ts = [] ∨
      ∃ pre, (ts.foldl (processTimestamp c2Engine c2Prices c2Signals)
          st).equity_curve =
        pre ++ [(ts.foldl (processTimestamp c2Engine c2Prices c2Signals)
          st).capital - 101 / 2]) := by
  induction ts generalizing st with
  | nil => exact ⟨h, Or.inl ⟨rfl, rfl⟩⟩
  | cons t ts ih =>
    have ht := hts t (List.mem_cons_self t ts)
    obtain ⟨hinv, -, heq⟩ := c2_step t ht.1 ht.2 st h
    have ihres := ih (fun u hu => hts u (List.mem_cons_of_mem t hu)) _ hinv
    rw [List.foldl_cons]
    refine ⟨ihres.1, Or.inr ?_⟩
    rcases ihres.2 with ⟨hequ, htsnil⟩ | ⟨pre, hpre⟩
    · subst htsnil
      exact ⟨st.equity_curve, heq⟩
    · exact ⟨pre, hpre⟩

set_option maxRecDepth 40000 in
/-- C2 (counterexample): the claim pins the scenario's entry price at
`50000·1.001`, but the slippage factor is `slippage·(1 + quantity/100)`,
so the capital after the entry fill differs from the claimed
`initial − 50000·1.001·1 − 50000·1.001·1·0.0002`. -/
theorem c2_counterexample :
    (processTimestamp c2Engine c2Prices c2Signals c2Init 0).capital ≠
      100000 - 50000 * 1.001 * 1 - 50000 * 1.001 * 1 * 0.0002 := by
  decide

set_option maxRecDepth 40000 in
/-- C2 (amended): in the flat-price buy-and-hold scenario exactly one
position is open after bar 0, entered (and capital-debited) at
`50000·(1 + 0.001·(1 + 1/100))`; the full run closes nothing
(`total_trades = 0`) and ends below the initial capital. -/
theorem c2_amended_scenario :
    (processTimestamp c2Engine c2Prices c2Signals c2Init 0).positions =
      [("BTC", { symbol := "BTC", size := 1,
                 entry_price := 50000 * (1 + 0.001 * (1 + 1 / 100)),
                 mark_price := 50000 * (1 + 0.001 * (1 + 1 / 100)),
                 unrealized_pnl := 0, realized_pnl := 0,
                 funding_paid := 0 })] ∧
    (processTimestamp c2Engine c2Prices c2Signals c2Init 0).capital =
      100000 - 50000 * (1 + 0.001 * (1 + 1 / 100)) * 1 -
        50000 * (1 + 0.001 * (1 + 1 / 100)) * 1 * 0.0002 ∧
    ∃ r, BacktestEngine.run c2Engine c2Prices c2Signals 100000 = .ok r ∧
      r.total_trades = 0 ∧ r.final_capital < 100000 := by
  have h1 : uniqueSortedTimestamps c2Prices = List.range 100 := by decide
  have h2 : List.range 100 = 0 :: List.range' 1 99 := by decide
  have h3 : processTimestamp c2Engine c2Prices c2Signals c2Init 0 =
      { capital := 499394899 / 10000,
        positions := [("BTC",
          { symbol := "BTC", size := 1, entry_price := 100101 / 2,
            mark_price := 100101 / 2, unrealized_pnl := 0,
            realized_pnl := 0, funding_paid := 0 })],
        trades := [],
        equity_curve := [100000, 499394899 / 10000] } := by decide
  have hInvLit : c2Inv
      { capital := 499394899 / 10000,
        positions := [("BTC",
          { symbol := "BTC", size := 1, entry_price := 100101 / 2,
            mark_price := 100101 / 2, unrealized_pnl := 0,
            realized_pnl := 0, funding_paid := 0 })],
        trades := [],
        equity_curve := [100000, 499394899 / 10000] } :=
    ⟨rfl, by norm_num, 100101 / 2, 0, 0, rfl⟩
  have hts : ∀ t ∈ List.range' 1 99, t ≠ 0 ∧ t < 100 := by decide
  have hfold := c2_fold (List.range' 1 99) hts _ hInvLit
  have hrun : runState c2Engine c2Prices c2Signals 100000 =
      (List.range' 1 99).foldl
        (processTimestamp c2Engine c2Prices c2Signals)
        { capital := 499394899 / 10000,
          positions := [("BTC",
            { symbol := "BTC", size := 1, entry_price := 100101 / 2,
              mark_price := 100101 / 2, unrealized_pnl := 0,
              realized_pnl := 0, funding_paid := 0 })],
          trades := [],
          equity_curve := [100000, 499394899 / 10000] } := by
    unfold runState
    rw [h1, h2, List.foldl_cons]
    show (List.range' 1 99).foldl _
      (processTimestamp c2Engine c2Prices c2Signals c2Init 0) = _
    rw [h3]
  obtain ⟨⟨hTr, hCap, -⟩, hOr⟩ := hfold
  have hne : ¬(c2Prices.isEmpty = true) := by decide
  rcases hOr with ⟨-, habs⟩ | ⟨pre, hpre⟩
  · exact absurd habs (by decide)
  · refine ⟨by decide, by decide, ?_⟩
    unfold BacktestEngine.run
    rw [if_neg hne]
    refine ⟨_, rfl, ?_, ?_⟩
    · show (runState c2Engine c2Prices c2Signals 100000).trades.length = 0
      rw [hrun, hTr]
      rfl
    · show (runState c2Engine c2Prices c2Signals
        100000).equity_curve.getLastD 100000 < 100000
      rw [hrun, hpre, List.getLastD_concat]
      linarith

end Theorems

end AlphaTrading
